import Mathlib

/-! Verification of the arithmetic expression engine of the web calculator:
a tokenizer with implicit-multiplication insertion, a shunting-yard
infix-to-postfix reorderer, and a stack-based RPN evaluator with scientific
functions and two angle modes.  Token literals carry exact rational values;
the evaluator computes over the real numbers, with the transcendental
primitives of the host math library modelled by their Mathlib counterparts. -/

namespace CalcEngine

/-- Angle mode, the source's string union `"DEG" | "RAD"`. -/
inductive AngleMode
  | deg
  | rad
deriving DecidableEq, Repr

/-- Error kinds of the engine; the source throws `Error` values with fixed
messages, one kind per message. -/
inductive Err
  | unexpectedChar (c : Char)
  | mismatchedParens
  | commaOutsideFunction
  | arityError
  | invalidExpression
  | unknownId (s : String)
  | negativeFactorial
  | nonIntegerFactorial
  | factorialTooLarge
  | badToken
deriving DecidableEq, Repr

/-- Token type (`Tok` in the source): numbers, identifiers, the five binary
operators, unary minus, parentheses, comma, and the two postfix operators. -/
inductive Tok
  | num (value : ℚ)
  | id (value : String)
  | plus
  | minus
  | mul
  | div
  | pow
  | uminus
  | lparen
  | rparen
  | comma
  | percent
  | bang
deriving DecidableEq, Repr

/-- The source's `isDigit`, the regular expression `[0-9]`. -/
def isDigitCh (c : Char) : Bool := c.isDigit

/-- The source's `isAlpha`, the regular expression `[a-z]` case-insensitive. -/
def isAlphaCh (c : Char) : Bool := c.isAlpha

/-- Value of a run of decimal digit characters. -/
def digitsToNat (l : List Char) : ℕ :=
  l.foldl (fun acc c => acc * 10 + (c.toNat - 48)) 0

/-- Pieces of a scanned numeric literal: integer-part digits, fraction
digits, exponent sign, exponent digits. -/
structure NumParts where
  ip : List Char
  fp : List Char
  eneg : Bool
  ed : List Char
deriving DecidableEq, Repr

/-- Scan of a numeric literal: digits, then an optional `.` with digits, then
an optional exponent suffix that is committed only when at least one exponent
digit follows.  Returns the literal pieces and the unconsumed rest. -/
def scanNumber (l : List Char) : NumParts × List Char :=
  let ip := l.takeWhile isDigitCh
  let r1 := l.drop ip.length
  let fr :=
    match r1 with
    | '.' :: r => (r.takeWhile isDigitCh, r.drop (r.takeWhile isDigitCh).length)
    | _ => (([] : List Char), r1)
  let r2 := fr.2
  let er :=
    match r2 with
    | c :: r =>
      if c = 'e' ∨ c = 'E' then
        match r with
        | c2 :: r3 =>
          if c2 = '+' ∨ c2 = '-' then
            let ds := r3.takeWhile isDigitCh
            if ds.isEmpty then (false, ([] : List Char), r2)
            else (c2 == '-', ds, r3.drop ds.length)
          else
            let ds := r.takeWhile isDigitCh
            if ds.isEmpty then (false, ([] : List Char), r2)
            else (false, ds, r.drop ds.length)
        | [] => (false, ([] : List Char), r2)
      else (false, ([] : List Char), r2)
    | [] => (false, ([] : List Char), r2)
  (⟨ip, fr.1, er.1, er.2.1⟩, er.2.2)

/-- The host `parseFloat` on the scanned literal grammar, with exact rational
semantics: mantissa digits over a power of ten, scaled by the signed decimal
exponent. -/
def numValue (p : NumParts) : ℚ :=
  let mant : ℕ := digitsToNat (p.ip ++ p.fp)
  let ex : ℕ := digitsToNat p.ed
  if p.eneg then mkRat mant (10 ^ (p.fp.length + ex))
  else mkRat (mant * 10 ^ ex) (10 ^ p.fp.length)

/-- The operator/punctuation record (`ops` in the source), keyed by strings.
The two entries staged for the multiply and divide glyphs carry the corrupted
two-code-unit keys `"ร\u0097"` (U+0E23 U+0097) and `"รท"` (U+0E23 U+0E17):
those are the bytes of the source file, not the glyphs `×`/`÷` themselves. -/
def opsTable : List (String × Tok) :=
  [("+", Tok.plus), ("-", Tok.minus), ("*", Tok.mul), ("ร\u0097", Tok.mul),
    ("/", Tok.div), ("รท", Tok.div), ("^", Tok.pow), ("(", Tok.lparen),
    (")", Tok.rparen), (",", Tok.comma), ("%", Tok.percent), ("!", Tok.bang)]

/-- The lookup `ops[ch]` on a single scanned character. -/
def opTok (c : Char) : Option Tok :=
  (opsTable.find? fun kv => kv.1 == String.mk [c]).map fun kv => kv.2

/-- Main scan loop of `tokenize`.  The fuel is the input length; every
iteration consumes at least one character, so the fuel never runs out. -/
def scanAux : ℕ → List Char → Except Err (List Tok)
  | 0, _ => Except.ok []
  | _ + 1, [] => Except.ok []
  | fuel + 1, c :: rest =>
    if c = ' ' ∨ c = '\t' then scanAux fuel rest
    else if isDigitCh c = true ∨ (c = '.' ∧ isDigitCh (rest.headD ' ') = true) then
      Except.bind (scanAux fuel (scanNumber (c :: rest)).2) fun ts =>
        Except.ok (Tok.num (numValue (scanNumber (c :: rest)).1) :: ts)
    else if isAlphaCh c = true then
      Except.bind (scanAux fuel ((c :: rest).drop ((c :: rest).takeWhile isAlphaCh).length))
        fun ts =>
          Except.ok (Tok.id (String.mk (((c :: rest).takeWhile isAlphaCh).map Char.toLower)) :: ts)
    else
      match opTok c with
      | some t => Except.bind (scanAux fuel rest) fun ts => Except.ok (t :: ts)
      | none => Except.error (Err.unexpectedChar c)

/-- Token is "value-ending": Number, RightParen, Factorial, Percent, or
Identifier. -/
def isValueEnding : Tok → Bool
  | .num _ => true
  | .rparen => true
  | .bang => true
  | .percent => true
  | .id _ => true
  | _ => false

/-- Token is LeftParen or an Identifier. -/
def isLparenOrId : Tok → Bool
  | .lparen => true
  | .id _ => true
  | _ => false

/-- Token is RightParen, Factorial, or Percent. -/
def isRBP : Tok → Bool
  | .rparen => true
  | .bang => true
  | .percent => true
  | _ => false

/-- Token is Number, Identifier, or LeftParen. -/
def isNumIdLparen : Tok → Bool
  | .num _ => true
  | .id _ => true
  | .lparen => true
  | _ => false

/-- Token is an Identifier. -/
def isIdTok : Tok → Bool
  | .id _ => true
  | _ => false

/-- Token is a Number. -/
def isNumTok : Tok → Bool
  | .num _ => true
  | _ => false

/-- Decision of the post-scan pass: is a synthetic Multiply pushed between
adjacent tokens `t` and `next`?  The three branches mirror the source's
if/else-if chain. -/
def needsMul (t next : Tok) : Bool :=
  if isValueEnding t && isLparenOrId next then true
  else if isRBP t && isNumIdLparen next then true
  else if isIdTok t && isNumTok next then true
  else false

/-- Post-scan implicit-multiplication pass: each token is emitted, followed
by a synthetic Multiply when the adjacency rule fires. -/
def postScan : List Tok → List Tok
  | [] => []
  | [t] => [t]
  | t :: next :: rest =>
    if needsMul t next then t :: Tok.mul :: postScan (next :: rest)
    else t :: postScan (next :: rest)

/-- `tokenize`: character scan, then the implicit-multiplication pass. -/
def tokenize (s : String) : Except Err (List Tok) :=
  Except.bind (scanAux s.data.length s.data) fun raw => Except.ok (postScan raw)

/-- Precedence table; absent entries default to 0 as in the source. -/
def precOf : Tok → ℕ
  | .uminus => 5
  | .pow => 4
  | .mul => 3
  | .div => 3
  | .plus => 2
  | .minus => 2
  | _ => 0

/-- Right-associative operators. -/
def isRightAssoc : Tok → Bool
  | .pow => true
  | .uminus => true
  | _ => false

/-- Token is one of the operators handled by the shunting loop. -/
def isOpTok : Tok → Bool
  | .plus => true
  | .minus => true
  | .mul => true
  | .div => true
  | .pow => true
  | .uminus => true
  | _ => false

/-- Previous-token kinds after which a `-` is reinterpreted as unary. -/
def isStartCtx : Tok → Bool
  | .plus => true
  | .minus => true
  | .mul => true
  | .div => true
  | .pow => true
  | .lparen => true
  | .comma => true
  | _ => false

/-- Unary-minus detection pass, computed against the original infix
sequence: `prev` is the original previous token, `none` at the start. -/
def markUnary (prev : Option Tok) : List Tok → List Tok
  | [] => []
  | t :: rest =>
    (if t = Tok.minus ∧ (match prev with | none => true | some p => isStartCtx p) = true
      then Tok.uminus else t) :: markUnary (some t) rest

/-- Inner while loop on operator arrival: pop operators that dominate per the
associativity rule, and bare identifiers, to the output.  Returns the popped
tokens in pop order and the remaining stack. -/
def popOps (t : Tok) : List Tok → List Tok × List Tok
  | [] => ([], [])
  | top :: rest =>
    if isOpTok top = true then
      if (isRightAssoc t = true ∧ precOf t < precOf top) ∨
          (¬ isRightAssoc t = true ∧ precOf t ≤ precOf top) then
        (top :: (popOps t rest).1, (popOps t rest).2)
      else ([], top :: rest)
    else if isIdTok top = true then
      (top :: (popOps t rest).1, (popOps t rest).2)
    else ([], top :: rest)

/-- Pop until a LeftParen: `none` when the stack empties first, otherwise the
popped tokens in pop order and the stack strictly below the LeftParen. -/
def popUntilLp : List Tok → Option (List Tok × List Tok)
  | [] => none
  | top :: rest =>
    if top = Tok.lparen then some ([], rest)
    else
      match popUntilLp rest with
      | none => none
      | some pr => some (top :: pr.1, pr.2)

/-- Operator arrival: pop dominating entries, then push the operator. -/
def opArrive (out stack : List Tok) (t : Tok) : Except Err (List Tok × List Tok) :=
  Except.ok (out ++ (popOps t stack).1, t :: (popOps t stack).2)

/-- One shunting-yard step on the state (output, operator stack). -/
def rpnStep (out stack : List Tok) : Tok → Except Err (List Tok × List Tok)
  | .num v => Except.ok (out ++ [Tok.num v], stack)
  | .id s => Except.ok (out, Tok.id s :: stack)
  | .plus => opArrive out stack Tok.plus
  | .minus => opArrive out stack Tok.minus
  | .mul => opArrive out stack Tok.mul
  | .div => opArrive out stack Tok.div
  | .pow => opArrive out stack Tok.pow
  | .uminus => opArrive out stack Tok.uminus
  | .lparen => Except.ok (out, Tok.lparen :: stack)
  | .rparen =>
    match popUntilLp stack with
    | none => Except.error Err.mismatchedParens
    | some pr =>
      match pr.2 with
      | [] => Except.ok (out ++ pr.1, [])
      | x :: s2 =>
        if isIdTok x = true then Except.ok (out ++ pr.1 ++ [x], s2)
        else Except.ok (out ++ pr.1, x :: s2)
  | .comma =>
    match popUntilLp stack with
    | none => Except.error Err.commaOutsideFunction
    | some pr => Except.ok (out ++ pr.1, Tok.lparen :: pr.2)
  | .percent => Except.ok (out ++ [Tok.percent], stack)
  | .bang => Except.ok (out ++ [Tok.bang], stack)

/-- Main shunting-yard loop over the token sequence. -/
def runRPN : List Tok → List Tok → List Tok → Except Err (List Tok × List Tok)
  | [], out, stack => Except.ok (out, stack)
  | t :: rest, out, stack =>
    Except.bind (rpnStep out stack t) fun os => runRPN rest os.1 os.2

/-- Final drain of the operator stack; a leftover parenthesis is an error. -/
def drainStack : List Tok → Except Err (List Tok)
  | [] => Except.ok []
  | x :: rest =>
    if x = Tok.lparen ∨ x = Tok.rparen then Except.error Err.mismatchedParens
    else Except.bind (drainStack rest) fun o => Except.ok (x :: o)

/-- `toRPN`: unary-minus detection, main loop, stack drain. -/
def toRPN (tokens : List Tok) : Except Err (List Tok) :=
  Except.bind (runRPN (markUnary none tokens) [] []) fun os =>
  Except.bind (drainStack os.2) fun rest =>
  Except.ok (os.1 ++ rest)

/-- Degrees-to-radians conversion applied in `"DEG"` mode. -/
noncomputable def toRad (mode : AngleMode) (x : ℝ) : ℝ :=
  if mode = AngleMode.deg then x * Real.pi / 180 else x

/-- Radians-to-degrees conversion applied in `"DEG"` mode. -/
noncomputable def fromRad (mode : AngleMode) (x : ℝ) : ℝ :=
  if mode = AngleMode.deg then x * 180 / Real.pi else x

/-- One-argument function table (`fn1`). -/
noncomputable def fn1 (mode : AngleMode) : String → Option (ℝ → ℝ)
  | "sin" => some fun x => Real.sin (toRad mode x)
  | "cos" => some fun x => Real.cos (toRad mode x)
  | "tan" => some fun x => Real.tan (toRad mode x)
  | "asin" => some fun x => fromRad mode (Real.arcsin x)
  | "acos" => some fun x => fromRad mode (Real.arccos x)
  | "atan" => some fun x => fromRad mode (Real.arctan x)
  | "ln" => some fun x => Real.log x
  | "log" => some fun x => Real.logb 10 x
  | "sqrt" => some fun x => Real.sqrt x
  | "exp" => some fun x => Real.exp x
  | "abs" => some fun x => |x|
  | _ => none

/-- Two-argument function table (`fn2`). -/
noncomputable def fn2 : String → Option (ℝ → ℝ → ℝ)
  | "pow" => some fun a b => a ^ b
  | "min" => some fun a b => min a b
  | "max" => some fun a b => max a b
  | _ => none

/-- `factorial` with its domain checks: negative, non-integer, too large;
otherwise the iterative product 1 × 2 × ... × n (the loop multiplies by
i = 2, ..., n starting from 1). -/
noncomputable def factorial (n : ℝ) : Except Err ℝ :=
  if n < 0 then Except.error Err.negativeFactorial
  else if (⌊n⌋ : ℝ) ≠ n then Except.error Err.nonIntegerFactorial
  else if n > 170 then Except.error Err.factorialTooLarge
  else Except.ok ((List.range' 2 (⌊n⌋.toNat - 1)).foldl (fun (r : ℝ) (i : ℕ) => r * (i : ℝ)) 1)

/-- One evaluation step on the numeric value stack (top at the head; the
second operand `b` is popped first, then the first operand `a`). -/
noncomputable def evalStep (mode : AngleMode) (stack : List ℝ) : Tok → Except Err (List ℝ)
  | .num v => Except.ok ((v : ℝ) :: stack)
  | .plus =>
    match stack with
    | b :: a :: s => Except.ok ((a + b) :: s)
    | _ => Except.error Err.arityError
  | .minus =>
    match stack with
    | b :: a :: s => Except.ok ((a - b) :: s)
    | _ => Except.error Err.arityError
  | .mul =>
    match stack with
    | b :: a :: s => Except.ok ((a * b) :: s)
    | _ => Except.error Err.arityError
  | .div =>
    match stack with
    | b :: a :: s => Except.ok ((a / b) :: s)
    | _ => Except.error Err.arityError
  | .pow =>
    match stack with
    | b :: a :: s => Except.ok ((a ^ b) :: s)
    | _ => Except.error Err.arityError
  | .uminus =>
    match stack with
    | a :: s => Except.ok ((-a) :: s)
    | _ => Except.error Err.arityError
  | .id name =>
    if name = "pi" then Except.ok (Real.pi :: stack)
    else if name = "e" then Except.ok (Real.exp 1 :: stack)
    else
      match fn1 mode name with
      | some f =>
        match stack with
        | a :: s => Except.ok (f a :: s)
        | _ => Except.error Err.arityError
      | none =>
        match fn2 name with
        | some f =>
          match stack with
          | b :: a :: s => Except.ok (f a b :: s)
          | _ => Except.error Err.arityError
        | none => Except.error (Err.unknownId name)
  | .percent =>
    match stack with
    | a :: s => Except.ok ((a / 100) :: s)
    | _ => Except.error Err.arityError
  | .bang =>
    match stack with
    | a :: s =>
      match factorial a with
      | .error e => Except.error e
      | .ok r => Except.ok (r :: s)
    | _ => Except.error Err.arityError
  | .lparen => Except.error Err.badToken
  | .rparen => Except.error Err.badToken
  | .comma => Except.error Err.badToken

/-- Walk of the postfix sequence with the value stack. -/
noncomputable def evalRPN (mode : AngleMode) : List ℝ → List Tok → Except Err (List ℝ)
  | stack, [] => Except.ok stack
  | stack, t :: rest => Except.bind (evalStep mode stack t) fun s => evalRPN mode s rest

/-- Final check of `evaluate`: exactly one value must remain on the stack. -/
def finishEval : List ℝ → Except Err ℝ
  | [v] => Except.ok v
  | _ => Except.error Err.invalidExpression

/-- `evaluate`: tokenize, reorder to postfix, evaluate the postfix sequence. -/
noncomputable def evaluate (expr : String) (mode : AngleMode) : Except Err ℝ :=
  Except.bind (tokenize expr) fun ts =>
  Except.bind (toRPN ts) fun rpn =>
  Except.bind (evalRPN mode [] rpn) finishEval

/-- Token allowed in a postfix output sequence: everything except LeftParen,
RightParen and Comma (that is: Number, Identifier, the five binary operators,
UnaryMinus, Percent, Factorial). -/
def okOut : Tok → Bool
  | .lparen => false
  | .rparen => false
  | .comma => false
  | _ => true

/-- Token that can ever be pushed on the shunting-yard operator stack:
operators, identifiers and LeftParen. -/
def okStack : Tok → Bool
  | .plus => true
  | .minus => true
  | .mul => true
  | .div => true
  | .pow => true
  | .uminus => true
  | .id _ => true
  | .lparen => true
  | _ => false

/-- No adjacent pair of the list satisfies the implicit-multiplication
adjacency condition. -/
def adjOK : List Tok → Bool
  | t :: u :: rest => !needsMul t u && adjOK (u :: rest)
  | _ => true

/-- A value-producing token in the sense of the tokenization invariant:
a Number or an Identifier denotes a value. -/
def isValueTok : Tok → Bool
  | .num _ => true
  | .id _ => true
  | _ => false

/-! ### Basic computation lemmas -/

lemma ebind_ok {α β γ : Type} (x : β) (f : β → Except α γ) :
    Except.bind (Except.ok x) f = f x := rfl

lemma ebind_err {α β γ : Type} (e : α) (f : β → Except α γ) :
    Except.bind (Except.error e) f = Except.error e := rfl

/-! ### Lemmas on the implicit-multiplication pass -/

lemma postScan_cons (x y : Tok) (r : List Tok) :
    postScan (x :: y :: r) =
      if needsMul x y then x :: Tok.mul :: postScan (y :: r)
      else x :: postScan (y :: r) := rfl

lemma postScan_head (u : Tok) (b : List Tok) : ∃ r, postScan (u :: b) = u :: r := by
  cases b with
  | nil => exact ⟨[], rfl⟩
  | cons y r2 =>
    by_cases h : needsMul u y = true
    · exact ⟨Tok.mul :: postScan (y :: r2), by rw [postScan_cons, if_pos h]⟩
    · exact ⟨postScan (y :: r2), by rw [postScan_cons, if_neg h]⟩

lemma postScan_insert (a : List Tok) (t u : Tok) (b : List Tok)
    (h : needsMul t u = true) :
    ∃ pre post, postScan (a ++ t :: u :: b) = pre ++ t :: Tok.mul :: u :: post := by
  induction a with
  | nil =>
    obtain ⟨r, hr⟩ := postScan_head u b
    refine ⟨[], r, ?_⟩
    rw [List.nil_append, postScan_cons, if_pos h, hr]
    simp
  | cons x a2 ih =>
    obtain ⟨pre, post, hp⟩ := ih
    cases h2 : a2 ++ t :: u :: b with
    | nil => exact absurd h2 (by simp)
    | cons y r =>
      by_cases hm : needsMul x y = true
      · refine ⟨x :: Tok.mul :: pre, post, ?_⟩
        rw [List.cons_append, h2, postScan_cons, if_pos hm, ← h2, hp]
        simp
      · refine ⟨x :: pre, post, ?_⟩
        rw [List.cons_append, h2, postScan_cons, if_neg hm, ← h2, hp]
        simp

lemma needsMul_rule1 (t u : Tok) (h1 : isValueEnding t = true)
    (h2 : isLparenOrId u = true) : needsMul t u = true := by
  simp [needsMul, h1, h2]

lemma needsMul_rule2_num (t u : Tok) (h1 : isRBP t = true)
    (h2 : isNumTok u = true) : needsMul t u = true := by
  have hl : isLparenOrId u = false := by cases u <;> simp_all [isNumTok, isLparenOrId]
  have hn : isNumIdLparen u = true := by cases u <;> simp_all [isNumTok, isNumIdLparen]
  simp [needsMul, hl, hn, h1]

lemma needsMul_mul_left (u : Tok) : needsMul Tok.mul u = false := by
  cases u <;> rfl

lemma needsMul_mul_right (t : Tok) : needsMul t Tok.mul = false := by
  cases t <;> rfl

lemma adjOK_cons (x m : Tok) (r : List Tok) :
    adjOK (x :: m :: r) = (!needsMul x m && adjOK (m :: r)) := rfl

lemma postScan_adjOK (l : List Tok) : adjOK (postScan l) = true := by
  induction l with
  | nil => rfl
  | cons t rest ih =>
    cases rest with
    | nil => rfl
    | cons u r =>
      obtain ⟨r2, hr⟩ := postScan_head u r
      rw [hr] at ih
      rw [postScan_cons]
      by_cases h : needsMul t u = true
      · rw [if_pos h, hr, adjOK_cons, adjOK_cons, needsMul_mul_right, needsMul_mul_left]
        simp [ih]
      · have hf : needsMul t u = false := by simpa using h
        rw [if_neg h, hr, adjOK_cons, hf]
        simp [ih]

lemma adjOK_pair (a : List Tok) : ∀ (t u : Tok) (b : List Tok),
    adjOK (a ++ t :: u :: b) = true → needsMul t u = false := by
  induction a with
  | nil =>
    intro t u b h
    rw [List.nil_append, adjOK_cons] at h
    obtain ⟨h1, _⟩ := Bool.and_eq_true_iff.1 h
    simpa using h1
  | cons x a2 ih =>
    intro t u b h
    rw [List.cons_append] at h
    cases h2 : a2 ++ t :: u :: b with
    | nil => exact absurd h2 (by simp)
    | cons y r =>
      rw [h2, adjOK_cons] at h
      obtain ⟨_, h3⟩ := Bool.and_eq_true_iff.1 h
      rw [← h2] at h3
      exact ih t u b h3

/-! ### Lemmas on factorial -/

lemma foldl_mul_range (k : ℕ) :
    (List.range' 2 k).foldl (fun (r : ℝ) (i : ℕ) => r * (i : ℝ)) 1 = ((k + 1).factorial : ℝ) := by
  induction k with
  | zero => simp [Nat.factorial]
  | succ k ih =>
    rw [List.range'_concat, List.foldl_append, ih]
    simp only [List.foldl_cons, List.foldl_nil]
    push_cast [Nat.factorial_succ]
    ring

lemma factLoop_factorial (m : ℕ) :
    (List.range' 2 (m - 1)).foldl (fun (r : ℝ) (i : ℕ) => r * (i : ℝ)) 1 = (m.factorial : ℝ) := by
  cases m with
  | zero => simp [List.range', Nat.factorial]
  | succ j => simpa using foldl_mul_range j

lemma factorial_ok (n : ℝ) (h1 : ¬ n < 0) (h2 : (⌊n⌋ : ℝ) = n) (h3 : ¬ n > 170) :
    factorial n = Except.ok (Nat.factorial ⌊n⌋.toNat : ℝ) := by
  unfold factorial
  rw [if_neg h1, if_neg (by simp [h2]), if_neg h3, factLoop_factorial]

lemma factorial_neg_iff (n : ℝ) :
    factorial n = Except.error Err.negativeFactorial ↔ n < 0 := by
  unfold factorial
  split_ifs with h1 h2 h3
  · simp [h1]
  · simp [h1]
  · simp [h1]
  · simp [h1]

lemma factorial_nonint_iff (n : ℝ) :
    factorial n = Except.error Err.nonIntegerFactorial ↔ 0 ≤ n ∧ (⌊n⌋ : ℝ) ≠ n := by
  unfold factorial
  split_ifs with h1 h2 h3
  · simp [not_le.2 h1]
  · simp [h2, not_lt.1 h1]
  · simp [h2]
  · simp [h2]

lemma factorial_toolarge_iff (n : ℝ) :
    factorial n = Except.error Err.factorialTooLarge ↔ (⌊n⌋ : ℝ) = n ∧ 170 < n := by
  unfold factorial
  split_ifs with h1 h2 h3
  · simp [show ¬ (170:ℝ) < n by linarith]
  · simp [h2]
  · simp [not_ne_iff.1 h2, h3]
  · simp [h3]

lemma factorial_zero : factorial 0 = Except.ok 1 := by
  rw [factorial_ok 0 (by norm_num) (by simp) (by norm_num)]
  simp [Nat.factorial]

lemma factorial_cast_one : factorial ((1:ℚ):ℝ) = Except.ok 1 := by
  have hc : ((1:ℚ):ℝ) = (1:ℝ) := by norm_num
  rw [hc, factorial_ok 1 (by norm_num) (by simp) (by norm_num)]
  simp [Nat.factorial]

/-! ### Invariants of the shunting-yard reorderer -/

lemma isOpTok_okOut (t : Tok) (h : isOpTok t = true) : okOut t = true := by
  cases t <;> simp_all [isOpTok, okOut]

lemma isIdTok_okOut (t : Tok) (h : isIdTok t = true) : okOut t = true := by
  cases t <;> simp_all [isIdTok, okOut]

lemma okStack_okOut (x : Tok) (h1 : okStack x = true) (h2 : x ≠ Tok.lparen) :
    okOut x = true := by
  cases x <;> simp_all [okStack, okOut]

lemma popOps_cons (t top : Tok) (rest : List Tok) :
    popOps t (top :: rest) =
      if isOpTok top = true then
        if (isRightAssoc t = true ∧ precOf t < precOf top) ∨
            (¬ isRightAssoc t = true ∧ precOf t ≤ precOf top) then
          (top :: (popOps t rest).1, (popOps t rest).2)
        else ([], top :: rest)
      else if isIdTok top = true then (top :: (popOps t rest).1, (popOps t rest).2)
      else ([], top :: rest) := rfl

lemma popOps_spec (t : Tok) (st : List Tok) :
    (∀ x ∈ (popOps t st).1, okOut x = true) ∧ (∀ x ∈ (popOps t st).2, x ∈ st) := by
  induction st with
  | nil => simp [popOps]
  | cons top rest ih =>
    by_cases h1 : isOpTok top = true
    · by_cases h2 : (isRightAssoc t = true ∧ precOf t < precOf top) ∨
          (¬ isRightAssoc t = true ∧ precOf t ≤ precOf top)
      · rw [popOps_cons, if_pos h1, if_pos h2]
        constructor
        · intro x hx
          rcases List.mem_cons.1 hx with rfl | hx
          · exact isOpTok_okOut x h1
          · exact ih.1 x hx
        · intro x hx
          exact List.mem_cons_of_mem _ (ih.2 x hx)
      · rw [popOps_cons, if_pos h1, if_neg h2]
        exact ⟨by simp, by simp⟩
    · by_cases h3 : isIdTok top = true
      · rw [popOps_cons, if_neg h1, if_pos h3]
        constructor
        · intro x hx
          rcases List.mem_cons.1 hx with rfl | hx
          · exact isIdTok_okOut x h3
          · exact ih.1 x hx
        · intro x hx
          exact List.mem_cons_of_mem _ (ih.2 x hx)
      · rw [popOps_cons, if_neg h1, if_neg h3]
        exact ⟨by simp, by simp⟩

lemma popUntilLp_cons (top : Tok) (rest : List Tok) :
    popUntilLp (top :: rest) =
      if top = Tok.lparen then some ([], rest)
      else
        match popUntilLp rest with
        | none => none
        | some pr => some (top :: pr.1, pr.2) := rfl

lemma popUntilLp_spec (st : List Tok) : ∀ o s, popUntilLp st = some (o, s) →
    (∀ x ∈ o, x ∈ st ∧ x ≠ Tok.lparen) ∧ (∀ x ∈ s, x ∈ st) := by
  induction st with
  | nil =>
    intro o s h
    simp [popUntilLp] at h
  | cons top rest ih =>
    intro o s h
    by_cases ht : top = Tok.lparen
    · rw [popUntilLp_cons, if_pos ht] at h
      obtain ⟨ho, hs⟩ : ([] : List Tok) = o ∧ rest = s := by simpa using h
      subst ho; subst hs
      refine ⟨by simp, ?_⟩
      intro x hx
      exact List.mem_cons_of_mem _ hx
    · rw [popUntilLp_cons, if_neg ht] at h
      cases hr : popUntilLp rest with
      | none => rw [hr] at h; cases h
      | some pr =>
        rw [hr] at h
        obtain ⟨ho, hs⟩ : top :: pr.1 = o ∧ pr.2 = s := by simpa using h
        subst ho; subst hs
        obtain ⟨hoo, hss⟩ := ih pr.1 pr.2 (by rw [hr])
        constructor
        · intro x hx
          rcases List.mem_cons.1 hx with rfl | hx
          · exact ⟨List.mem_cons_self _ _, ht⟩
          · obtain ⟨hx1, hx2⟩ := hoo x hx
            exact ⟨List.mem_cons_of_mem _ hx1, hx2⟩
        · intro x hx
          exact List.mem_cons_of_mem _ (hss x hx)

lemma opArrive_inv (out stack : List Tok) (t : Tok) (o s : List Tok)
    (hokt : okStack t = true)
    (hout : ∀ x ∈ out, okOut x = true) (hst : ∀ x ∈ stack, okStack x = true)
    (h : opArrive out stack t = Except.ok (o, s)) :
    (∀ x ∈ o, okOut x = true) ∧ (∀ x ∈ s, okStack x = true) := by
  unfold opArrive at h
  obtain ⟨ho, hs⟩ : out ++ (popOps t stack).1 = o ∧ t :: (popOps t stack).2 = s := by
    simpa using h
  subst ho; subst hs
  constructor
  · intro x hx
    rcases List.mem_append.1 hx with hx | hx
    · exact hout x hx
    · exact (popOps_spec t stack).1 x hx
  · intro x hx
    rcases List.mem_cons.1 hx with rfl | hx
    · exact hokt
    · exact hst x ((popOps_spec t stack).2 x hx)

lemma rpnStep_inv (out stack : List Tok) (tk : Tok) (o s : List Tok)
    (hout : ∀ x ∈ out, okOut x = true) (hst : ∀ x ∈ stack, okStack x = true)
    (h : rpnStep out stack tk = Except.ok (o, s)) :
    (∀ x ∈ o, okOut x = true) ∧ (∀ x ∈ s, okStack x = true) := by
  cases tk with
  | num v =>
    obtain ⟨ho, hs⟩ : out ++ [Tok.num v] = o ∧ stack = s := by
      simpa [rpnStep] using h
    subst ho; subst hs
    refine ⟨?_, hst⟩
    intro x hx
    rcases List.mem_append.1 hx with hx | hx
    · exact hout x hx
    · rw [List.mem_singleton.1 hx]; rfl
  | id nm =>
    obtain ⟨ho, hs⟩ : out = o ∧ Tok.id nm :: stack = s := by
      simpa [rpnStep] using h
    subst ho; subst hs
    refine ⟨hout, ?_⟩
    intro x hx
    rcases List.mem_cons.1 hx with rfl | hx
    · rfl
    · exact hst x hx
  | plus => exact opArrive_inv out stack Tok.plus o s rfl hout hst h
  | minus => exact opArrive_inv out stack Tok.minus o s rfl hout hst h
  | mul => exact opArrive_inv out stack Tok.mul o s rfl hout hst h
  | div => exact opArrive_inv out stack Tok.div o s rfl hout hst h
  | pow => exact opArrive_inv out stack Tok.pow o s rfl hout hst h
  | uminus => exact opArrive_inv out stack Tok.uminus o s rfl hout hst h
  | lparen =>
    obtain ⟨ho, hs⟩ : out = o ∧ Tok.lparen :: stack = s := by
      simpa [rpnStep] using h
    subst ho; subst hs
    refine ⟨hout, ?_⟩
    intro x hx
    rcases List.mem_cons.1 hx with rfl | hx
    · rfl
    · exact hst x hx
  | rparen =>
    simp only [rpnStep] at h
    cases hp : popUntilLp stack with
    | none => rw [hp] at h; cases h
    | some pr =>
      obtain ⟨o1, s1⟩ := pr
      rw [hp] at h
      obtain ⟨hpo, hps⟩ := popUntilLp_spec stack o1 s1 hp
      cases s1 with
      | nil =>
        obtain ⟨ho, hs⟩ : out ++ o1 = o ∧ ([] : List Tok) = s := by simpa using h
        subst ho; subst hs
        refine ⟨?_, by simp⟩
        intro x hx
        rcases List.mem_append.1 hx with hx | hx
        · exact hout x hx
        · obtain ⟨hx1, hx2⟩ := hpo x hx
          exact okStack_okOut x (hst x hx1) hx2
      | cons y s2 =>
        by_cases hy : isIdTok y = true
        · obtain ⟨ho, hs⟩ : out ++ o1 ++ [y] = o ∧ s2 = s := by simpa [hy] using h
          subst ho; subst hs
          constructor
          · intro x hx
            rcases List.mem_append.1 hx with hx | hx
            · rcases List.mem_append.1 hx with hx | hx
              · exact hout x hx
              · obtain ⟨hx1, hx2⟩ := hpo x hx
                exact okStack_okOut x (hst x hx1) hx2
            · rw [List.mem_singleton.1 hx]
              exact isIdTok_okOut y hy
          · intro x hx
            exact hst x (hps x (List.mem_cons_of_mem _ hx))
        · obtain ⟨ho, hs⟩ : out ++ o1 = o ∧ y :: s2 = s := by simpa [hy] using h
          subst ho; subst hs
          constructor
          · intro x hx
            rcases List.mem_append.1 hx with hx | hx
            · exact hout x hx
            · obtain ⟨hx1, hx2⟩ := hpo x hx
              exact okStack_okOut x (hst x hx1) hx2
          · intro x hx
            exact hst x (hps x hx)
  | comma =>
    simp only [rpnStep] at h
    cases hp : popUntilLp stack with
    | none => rw [hp] at h; cases h
    | some pr =>
      obtain ⟨o1, s1⟩ := pr
      rw [hp] at h
      obtain ⟨hpo, hps⟩ := popUntilLp_spec stack o1 s1 hp
      obtain ⟨ho, hs⟩ : out ++ o1 = o ∧ Tok.lparen :: s1 = s := by simpa using h
      subst ho; subst hs
      constructor
      · intro x hx
        rcases List.mem_append.1 hx with hx | hx
        · exact hout x hx
        · obtain ⟨hx1, hx2⟩ := hpo x hx
          exact okStack_okOut x (hst x hx1) hx2
      · intro x hx
        rcases List.mem_cons.1 hx with rfl | hx
        · rfl
        · exact hst x (hps x hx)
  | percent =>
    obtain ⟨ho, hs⟩ : out ++ [Tok.percent] = o ∧ stack = s := by
      simpa [rpnStep] using h
    subst ho; subst hs
    refine ⟨?_, hst⟩
    intro x hx
    rcases List.mem_append.1 hx with hx | hx
    · exact hout x hx
    · rw [List.mem_singleton.1 hx]; rfl
  | bang =>
    obtain ⟨ho, hs⟩ : out ++ [Tok.bang] = o ∧ stack = s := by
      simpa [rpnStep] using h
    subst ho; subst hs
    refine ⟨?_, hst⟩
    intro x hx
    rcases List.mem_append.1 hx with hx | hx
    · exact hout x hx
    · rw [List.mem_singleton.1 hx]; rfl

lemma runRPN_cons (t : Tok) (rest out stack : List Tok) :
    runRPN (t :: rest) out stack =
      Except.bind (rpnStep out stack t) fun os => runRPN rest os.1 os.2 := rfl

lemma runRPN_inv (ts : List Tok) : ∀ out stack o s,
    (∀ x ∈ out, okOut x = true) → (∀ x ∈ stack, okStack x = true) →
    runRPN ts out stack = Except.ok (o, s) →
    (∀ x ∈ o, okOut x = true) ∧ (∀ x ∈ s, okStack x = true) := by
  induction ts with
  | nil =>
    intro out stack o s hout hst h
    obtain ⟨h1, h2⟩ : out = o ∧ stack = s := by simpa [runRPN] using h
    subst h1; subst h2
    exact ⟨hout, hst⟩
  | cons t rest ih =>
    intro out stack o s hout hst h
    rw [runRPN_cons] at h
    cases hstep : rpnStep out stack t with
    | error e => rw [hstep, ebind_err] at h; cases h
    | ok os =>
      rw [hstep, ebind_ok] at h
      obtain ⟨h1, h2⟩ := rpnStep_inv out stack t os.1 os.2 hout hst (by rw [hstep])
      exact ih os.1 os.2 o s h1 h2 h

lemma drainStack_cons (y : Tok) (rest : List Tok) :
    drainStack (y :: rest) =
      if y = Tok.lparen ∨ y = Tok.rparen then Except.error Err.mismatchedParens
      else Except.bind (drainStack rest) fun o => Except.ok (y :: o) := rfl

lemma drainStack_ok (st : List Tok) : ∀ o, (∀ x ∈ st, okStack x = true) →
    drainStack st = Except.ok o → ∀ x ∈ o, okOut x = true := by
  induction st with
  | nil =>
    intro o _ h x hx
    obtain rfl : ([] : List Tok) = o := by simpa [drainStack] using h
    simp at hx
  | cons y rest ih =>
    intro o hst h
    by_cases hy : y = Tok.lparen ∨ y = Tok.rparen
    · rw [drainStack_cons, if_pos hy] at h; cases h
    · rw [drainStack_cons, if_neg hy] at h
      cases hd : drainStack rest with
      | error e => rw [hd, ebind_err] at h; cases h
      | ok o2 =>
        rw [hd, ebind_ok] at h
        obtain rfl : y :: o2 = o := by simpa using h
        intro x hx
        rcases List.mem_cons.1 hx with rfl | hx
        · push_neg at hy
          exact okStack_okOut x (hst x (List.mem_cons_self _ _)) hy.1
        · exact ih o2 (fun z hz => hst z (List.mem_cons_of_mem _ hz)) hd x hx

/-! ### Claim theorems -/

/-- C1: the claim states that `evaluate "-1!"` raises a negative-factorial
error.  The code does not: the leading `-` becomes UnaryMinus and is pushed on
the operator stack, while `!` is emitted to the output immediately, so the
postfix sequence is `[1, !, u-]`; factorial applies to the positive operand 1
and the negation comes last, and the call returns -1 with no error. -/
theorem evaluate_neg_one_bang : evaluate "-1!" AngleMode.deg = Except.ok (-1) := by
  have hstep : evalStep AngleMode.deg [((1:ℚ):ℝ)] Tok.bang = Except.ok [(1:ℝ)] := by
    simp only [evalStep]
    rw [factorial_cast_one]
  calc evaluate "-1!" AngleMode.deg
      = Except.bind (Except.bind (evalStep AngleMode.deg [((1:ℚ):ℝ)] Tok.bang) fun s =>
          evalRPN AngleMode.deg s [Tok.uminus]) finishEval := rfl
    _ = Except.ok (-1) := by rw [hstep]; rfl

/-- C2: the claim states that `evaluate "sin(30)"` in DEG mode returns a value
within 1e-10 of 0.5 and `evaluate "sin(pi/2)"` in RAD mode a value within
1e-10 of 1.  The code instead fails with an arity error on both: the post-scan
pass inserts an implicit Multiply between the function identifier and its
left parenthesis, which makes the reorderer flush `sin` to the output before
its argument, so the evaluator pops an empty stack. -/
theorem evaluate_sin_arity :
    evaluate "sin(30)" AngleMode.deg = Except.error Err.arityError ∧
    evaluate "sin(pi/2)" AngleMode.rad = Except.error Err.arityError :=
  ⟨rfl, rfl⟩

/-- C3: in the post-scan pass, at every position where the current token is
value-ending (Number, RightParen, Factorial, Percent, or Identifier) and the
next token is LeftParen or an Identifier — including an Identifier
immediately followed by LeftParen, such as a function name before its
argument list — a synthetic Multiply token is inserted between the two tokens
in the output sequence. -/
theorem postScan_mul_before_lparen_or_id (a : List Tok) (t u : Tok) (b : List Tok)
    (h1 : isValueEnding t = true) (h2 : isLparenOrId u = true) :
    ∃ pre post, postScan (a ++ t :: u :: b) = pre ++ t :: Tok.mul :: u :: post :=
  postScan_insert a t u b (needsMul_rule1 t u h1 h2)

/-- Witness for C3 at the concrete pair `sin` `(`. -/
theorem postScan_mul_before_lparen_or_id_witness :
    ∃ pre post, postScan [Tok.id "sin", Tok.lparen] =
      pre ++ Tok.id "sin" :: Tok.mul :: Tok.lparen :: post :=
  postScan_mul_before_lparen_or_id [] (Tok.id "sin") Tok.lparen [] rfl rfl

/-- C4 counterexample: the claim states that a successful tokenization never
contains two consecutive value-producing tokens without an intervening
operator, naming `"2 3"` as an instance.  But `tokenize "2 3"` succeeds and
returns the two Number tokens adjacent: no insertion rule of the post-scan
pass covers a Number immediately followed by a Number. -/
theorem tokenize_adjacent_numbers :
    tokenize "2 3" = Except.ok [Tok.num 2, Tok.num 3] ∧
    isValueTok (Tok.num 2) = true ∧ isValueTok (Tok.num 3) = true ∧
    needsMul (Tok.num 2) (Tok.num 3) = false :=
  ⟨rfl, rfl, rfl, rfl⟩

/-- C4 (amended): every adjacency that the implicit-multiplication rules
cover is separated in a successful tokenization: whenever `tokenize` returns
a token sequence, no two adjacent output tokens satisfy the insertion
condition `needsMul` (in particular a value-ending token is never immediately
followed by LeftParen or an Identifier).  A Number immediately followed by
another Number is not covered and stays adjacent. -/
theorem tokenize_no_insertable_adjacency (s : String) (ts : List Tok)
    (h : tokenize s = Except.ok ts) (a b : List Tok) (t u : Tok)
    (hts : ts = a ++ t :: u :: b) : needsMul t u = false := by
  unfold tokenize at h
  cases hsc : scanAux s.data.length s.data with
  | error e => rw [hsc, ebind_err] at h; cases h
  | ok raw =>
    rw [hsc, ebind_ok] at h
    have h2 : postScan raw = ts := by simpa using h
    apply adjOK_pair a t u b
    rw [← hts, ← h2]
    exact postScan_adjOK raw

/-- Witness for C4 on the concrete input `"2pi"`. -/
theorem tokenize_no_insertable_adjacency_witness :
    needsMul Tok.mul (Tok.id "pi") = false :=
  tokenize_no_insertable_adjacency "2pi" [Tok.num 2, Tok.mul, Tok.id "pi"] rfl
    [Tok.num 2] [] Tok.mul (Tok.id "pi") rfl

/-- C5: operator precedence and associativity: `evaluate "2+3*4" = 14`,
`evaluate "(2+3)*4" = 20`, `evaluate "2^8" = 256`, with the precedence table
UnaryMinus = 5, Power = 4, Multiply = Divide = 3, Add = Subtract = 2, Power
and UnaryMinus right-associative and the other binary operators
left-associative. -/
theorem evaluate_precedence :
    evaluate "2+3*4" AngleMode.deg = Except.ok 14 ∧
    evaluate "(2+3)*4" AngleMode.deg = Except.ok 20 ∧
    evaluate "2^8" AngleMode.deg = Except.ok 256 ∧
    precOf Tok.uminus = 5 ∧ precOf Tok.pow = 4 ∧ precOf Tok.mul = 3 ∧
    precOf Tok.div = 3 ∧ precOf Tok.plus = 2 ∧ precOf Tok.minus = 2 ∧
    isRightAssoc Tok.pow = true ∧ isRightAssoc Tok.uminus = true ∧
    isRightAssoc Tok.plus = false ∧ isRightAssoc Tok.minus = false ∧
    isRightAssoc Tok.mul = false ∧ isRightAssoc Tok.div = false := by
  refine ⟨?_, ?_, ?_, rfl, rfl, rfl, rfl, rfl, rfl, rfl, rfl, rfl, rfl, rfl, rfl⟩
  · have h : evaluate "2+3*4" AngleMode.deg =
        Except.ok (((2:ℚ):ℝ) + ((3:ℚ):ℝ) * ((4:ℚ):ℝ)) := rfl
    rw [h]
    norm_num
  · have h : evaluate "(2+3)*4" AngleMode.deg =
        Except.ok ((((2:ℚ):ℝ) + ((3:ℚ):ℝ)) * ((4:ℚ):ℝ)) := rfl
    rw [h]
    norm_num
  · have h : evaluate "2^8" AngleMode.deg =
        Except.ok (((2:ℚ):ℝ) ^ ((8:ℚ):ℝ)) := rfl
    rw [h]
    have h2 : ((2:ℚ):ℝ) = (2:ℝ) := by norm_num
    have h8 : ((8:ℚ):ℝ) = ((8:ℕ):ℝ) := by norm_num
    rw [h2, h8, Real.rpow_natCast]
    norm_num

/-- C6: for every number n, `factorial` fails with the negative error exactly
when n < 0, with the non-integer error exactly when n ≥ 0 and n is not a
whole number, with the too-large error exactly when n is a whole number
greater than 170; otherwise it returns the iterative product
1 × 2 × ... × n, with factorial 0 = 1. -/
theorem factorial_domain (n : ℝ) :
    (factorial n = Except.error Err.negativeFactorial ↔ n < 0) ∧
    (factorial n = Except.error Err.nonIntegerFactorial ↔ 0 ≤ n ∧ (⌊n⌋ : ℝ) ≠ n) ∧
    (factorial n = Except.error Err.factorialTooLarge ↔ (⌊n⌋ : ℝ) = n ∧ 170 < n) ∧
    (0 ≤ n → (⌊n⌋ : ℝ) = n → n ≤ 170 →
      factorial n = Except.ok (Nat.factorial ⌊n⌋.toNat : ℝ)) ∧
    factorial 0 = Except.ok 1 :=
  ⟨factorial_neg_iff n, factorial_nonint_iff n, factorial_toolarge_iff n,
    fun h1 h2 h3 => factorial_ok n (not_lt.2 h1) h2 (not_lt.2 h3), factorial_zero⟩

/-- Witness for C6 at n = 5. -/
theorem factorial_domain_witness :
    factorial (5:ℝ) = Except.ok (Nat.factorial ⌊(5:ℝ)⌋.toNat : ℝ) :=
  (factorial_domain 5).2.2.2.1 (by norm_num) (by norm_num) (by norm_num)

/-- C7: the claim states that both the ASCII characters and the unicode
multiply/divide glyphs are accepted, so that `tokenize "2×3"` and
`tokenize "2÷3"` succeed.  The ten ASCII mappings do hold, and the table does
contain two entries with values Multiply and Divide staged for the glyphs —
but their keys are the corrupted two-code-unit strings `"ร\u0097"` and
`"รท"`, which the single-character lookup can never match, so the characters
`×` and `÷` are rejected with an unexpected-character error and both
tokenizations fail. -/
theorem opTok_glyphs_rejected :
    tokenize "2×3" = Except.error (Err.unexpectedChar '×') ∧
    tokenize "2÷3" = Except.error (Err.unexpectedChar '÷') ∧
    opTok '+' = some Tok.plus ∧ opTok '-' = some Tok.minus ∧
    opTok '*' = some Tok.mul ∧ opTok '/' = some Tok.div ∧
    opTok '^' = some Tok.pow ∧ opTok '(' = some Tok.lparen ∧
    opTok ')' = some Tok.rparen ∧ opTok ',' = some Tok.comma ∧
    opTok '%' = some Tok.percent ∧ opTok '!' = some Tok.bang ∧
    opTok '×' = none ∧ opTok '÷' = none ∧
    ("ร\u0097", Tok.mul) ∈ opsTable ∧ ("รท", Tok.div) ∈ opsTable := by
  refine ⟨rfl, rfl, rfl, rfl, rfl, rfl, rfl, rfl, rfl, rfl, rfl, rfl, rfl, rfl, ?_, ?_⟩
  · simp [opsTable]
  · simp [opsTable]

/-- C8: division by zero is not an error.  The Divide step never fails when
two operands are present, whatever the divisor, and `evaluate "1/0"` returns
the value of the division of 1 by 0 (in this real-number model division is
total; the IEEE-754 infinity/NaN payloads have no counterpart here, and the
verified content is that no error is raised and the division's value is
returned). -/
theorem evaluate_div_zero :
    evaluate "1/0" AngleMode.deg = Except.ok ((1:ℝ) / 0) ∧
    ∀ (mode : AngleMode) (a b : ℝ) (s : List ℝ),
      evalStep mode (b :: a :: s) Tok.div = Except.ok ((a / b) :: s) := by
  constructor
  · have h : evaluate "1/0" AngleMode.deg =
        Except.ok (((1:ℚ):ℝ) / ((0:ℚ):ℝ)) := rfl
    rw [h]
    norm_num
  · intro mode a b s
    rfl

/-- C9: the post-scan pass also inserts a Multiply when a RightParen,
Factorial, or Percent token is immediately followed by a Number token — an
adjacency beyond the rules listed in the specification — so
`evaluate "(2)3"` succeeds and returns 6. -/
theorem postScan_mul_postfix_before_num :
    (∀ (a : List Tok) (t u : Tok) (b : List Tok), isRBP t = true → isNumTok u = true →
      ∃ pre post, postScan (a ++ t :: u :: b) = pre ++ t :: Tok.mul :: u :: post) ∧
    evaluate "(2)3" AngleMode.deg = Except.ok 6 := by
  constructor
  · intro a t u b h1 h2
    exact postScan_insert a t u b (needsMul_rule2_num t u h1 h2)
  · have h : evaluate "(2)3" AngleMode.deg =
        Except.ok (((2:ℚ):ℝ) * ((3:ℚ):ℝ)) := rfl
    rw [h]
    norm_num

/-- Witness for C9 at the concrete pair `)` `3`. -/
theorem postScan_mul_postfix_before_num_witness :
    ∃ pre post, postScan [Tok.rparen, Tok.num 3] =
      pre ++ Tok.rparen :: Tok.mul :: Tok.num 3 :: post :=
  postScan_mul_postfix_before_num.1 [] Tok.rparen (Tok.num 3) [] rfl rfl

/-- C10: whenever `toRPN` succeeds, the returned postfix sequence contains no
LeftParen, RightParen, or Comma token: `okOut` is true of a token exactly
when it is a Number, an Identifier, one of the five binary operators,
UnaryMinus, Percent, or Factorial. -/
theorem toRPN_no_paren_comma (ts out : List Tok) (h : toRPN ts = Except.ok out) :
    ∀ t ∈ out, okOut t = true := by
  unfold toRPN at h
  cases hr : runRPN (markUnary none ts) [] [] with
  | error e => rw [hr, ebind_err] at h; cases h
  | ok os =>
    rw [hr, ebind_ok] at h
    cases hd : drainStack os.2 with
    | error e => rw [hd, ebind_err] at h; cases h
    | ok rest =>
      rw [hd, ebind_ok] at h
      obtain rfl : os.1 ++ rest = out := by simpa using h
      obtain ⟨h1, h2⟩ := runRPN_inv (markUnary none ts) [] [] os.1 os.2
        (by intro x hx; simp at hx) (by intro x hx; simp at hx) (by rw [hr])
      intro t ht
      rcases List.mem_append.1 ht with ht | ht
      · exact h1 t ht
      · exact drainStack_ok os.2 rest h2 hd t ht

/-- Witness for C10 on the postfix form of `1 + 2`. -/
theorem toRPN_no_paren_comma_witness : okOut Tok.plus = true :=
  toRPN_no_paren_comma [Tok.num 1, Tok.plus, Tok.num 2]
    [Tok.num 1, Tok.num 2, Tok.plus] rfl Tok.plus (by simp)

end CalcEngine
